import Mathlib

/-!
Shallow embedding of `src/demo/lmcache_mock_api.py` (an in-memory mock of the
LMCache controller API) and proofs about it.

Modelling conventions:
* The four process-wide lists (`invalidation_log`, `cache_events`,
  `test_results`, `backend_comparisons`) are gathered into a `ServerState`
  record; each HTTP handler becomes a function from its request (plus the
  current state and the environment inputs it consumes) to the new state and
  its response.
* Wall-clock timestamps (`datetime.now()`) are environment inputs, passed in
  as an opaque `now : String`.
* Pseudo-random draws (`random.choice`, `random.random`, `random.randint`)
  are environment inputs as well: each simulated request consumes one `Draw`.
  The numeric draws are left unconstrained, a superset of the generator's
  actual ranges, so universally quantified theorems cover the real behaviour;
  `random.choice(models)` is modelled exactly, by indexing into the same list
  modulo its length.
* Python floats are modelled as `ℚ`; a float division that could raise
  `ZeroDivisionError` is modelled by `checkedDiv`, returning `none` on a zero
  denominator, and a handler that can raise returns `Option`/`Except`.
-/

namespace LMCacheMock

/-- Request body of `POST /clear` (pydantic model `ClearRequest`); pydantic
fills the string defaults, so the handler sees concrete values there. -/
structure ClearRequest where
  instance_id : String := "default"
  location : String := "LocalCPUBackend"
  document_id : Option Int := none
  reason : Option String := none
  deriving DecidableEq

/-- One entry of `invalidation_log` (the `log_entry` dict in `clear_cache`). -/
structure InvalidationRecord where
  event_id : String
  timestamp : String
  instance_id : String
  location : String
  document_id : Option Int
  reason : Option String
  deriving DecidableEq

/-- One entry of `cache_events`. -/
structure CacheEvent where
  event_type : String
  model : String
  input_tokens : ℕ
  latency_ms : ℕ
  saved_dollars : ℚ
  timestamp : String
  deriving DecidableEq

/-- The pydantic model `TestResult`, which doubles as the stored entry shape
for `test_results` and `backend_comparisons` (after `result.dict()` plus the
`received_at` stamp). Every field of the dict is materialised, possibly as
`none` — this matters for the `.get(..., default)` calls downstream. -/
structure TestResult where
  backend : Option String := some "default"
  context_size : Option Int := none
  cache_hit_rate : Option ℚ := none
  avg_ttft_ms : Option ℚ := none
  throughput : Option ℚ := none
  cost_per_request : Option ℚ := none
  savings_per_request : Option ℚ := none
  monthly_savings_100k : Option ℚ := none
  performance_score : Option ℚ := none
  rank_note : Option String := none
  source_file : Option String := none
  received_at : String := ""
  deriving DecidableEq

/-- The four module-level mutable lists. -/
structure ServerState where
  invalidation_log : List InvalidationRecord
  cache_events : List CacheEvent
  test_results : List TestResult
  backend_comparisons : List TestResult
  deriving DecidableEq

/-- The state at process start: all four logs empty. -/
def initialState : ServerState :=
  { invalidation_log := [], cache_events := [], test_results := [],
    backend_comparisons := [] }

/-- The `TOKEN_PRICING` table: model ↦ (input, output) dollars per million
tokens; `none` for models not in the table. -/
def TOKEN_PRICING (model : String) : Option (ℚ × ℚ) :=
  if model = "gpt-4o" then some (2.50, 10.00)
  else if model = "gpt-4o-mini" then some (0.15, 0.60)
  else if model = "claude-3-5-sonnet" then some (3.00, 15.00)
  else if model = "claude-3-haiku" then some (0.25, 1.25)
  else if model = "llama-3.1-70b" then some (0.52, 0.75)
  else if model = "deepseek-v3" then some (0.14, 0.28)
  else none

/-- The price actually used by the costing code:
`TOKEN_PRICING.get(model, {"input": 1.0})["input"]`. -/
def inputPriceOf (model : String) : ℚ :=
  ((TOKEN_PRICING model).map Prod.fst).getD 1

/-- Response of `POST /clear`. -/
structure ClearResponse where
  event_id : String
  num_tokens : ℕ
  message : String
  deriving DecidableEq

/-- Python truthiness of an `Optional[int]`: `None` and `0` are falsy. -/
def optIntTruthy : Option Int → Bool
  | none => false
  | some n => n != 0

/-- The `log_entry` dict appended by `clear_cache`. -/
def clearEntry (now : String) (request : ClearRequest) : InvalidationRecord :=
  { event_id := "Clear_" ++ now
    timestamp := now
    instance_id := request.instance_id
    location := request.location
    document_id := request.document_id
    reason := request.reason }

/-- Handler of `POST /clear`: append an `InvalidationRecord`, pop the oldest
entry once the log exceeds 100, and answer with a message that names the
document only when `request.document_id` is truthy. -/
def clear_cache (now : String) (request : ClearRequest) (s : ServerState) :
    ServerState × ClearResponse :=
  let log_entry := clearEntry now request
  let log := s.invalidation_log ++ [log_entry]
  -- Keep only last 100 entries
  let log := if log.length > 100 then log.tail else log
  ({ s with invalidation_log := log },
   { event_id := log_entry.event_id
     num_tokens := 256
     message :=
       if optIntTruthy request.document_id then
         "Cache cleared for document " ++ toString (request.document_id.getD 0)
       else
         "Cache cleared" })

/-- Request body of `POST /lookup`. -/
structure LookupRequest where
  tokens : List Int := []
  deriving DecidableEq

/-- The `layout_info` dict: one key, `"default_instance"`, holding the fixed
backend name and the number of requested tokens. -/
structure LayoutInfo where
  default_instance : String × ℕ
  deriving DecidableEq

/-- Response of `POST /lookup`. -/
structure LookupResponse where
  event_id : String
  layout_info : LayoutInfo
  deriving DecidableEq

/-- Handler of `POST /lookup`: reads no log and writes no log; the layout
reports a fixed tier and the token count. -/
def lookup_cache (now : String) (request : LookupRequest) (s : ServerState) :
    ServerState × LookupResponse :=
  (s,
   { event_id := "Lookup_" ++ now
     layout_info := { default_instance := ("LocalCPUBackend", request.tokens.length) } })

/-- Response of `GET /stats`. -/
structure StatsResponse where
  total_invalidations : ℕ
  recent_invalidations : List InvalidationRecord
  timestamp : String
  deriving DecidableEq

/-- Handler of `GET /stats`: the log length and its last 10 entries. -/
def get_stats (now : String) (s : ServerState) : StatsResponse :=
  { total_invalidations := s.invalidation_log.length
    recent_invalidations :=
      s.invalidation_log.drop (s.invalidation_log.length - 10)
    timestamp := now }

/-- One simulated request's worth of pseudo-random draws: the index
`random.choice` lands on, the outcome of the `random.random()` hit/miss coin,
and the two `random.randint` results. The numeric fields are unconstrained
(a superset of the generator's ranges). -/
structure Draw where
  modelIdx : ℕ
  isHit : Bool
  input_tokens : ℕ
  latency_ms : ℕ
  deriving DecidableEq

/-- The event dict appended per simulated request, shared verbatim by the
`/savings` seeding loop and `simulate_traffic` (only the `models` list and the
latency ranges differ, and latencies come from the draw). -/
def mkCacheEvent (now : String) (models : List String) (d : Draw) : CacheEvent :=
  let model := models.getD (d.modelIdx % models.length) ""
  let pricing := inputPriceOf model
  { event_type := if d.isHit then "hit" else "miss"
    model := model
    input_tokens := d.input_tokens
    latency_ms := d.latency_ms
    saved_dollars := if d.isHit then ((d.input_tokens : ℚ) / 1000000) * pricing else 0
    timestamp := now }

/-- The model list of the `/savings` seeding loop. -/
def seedModels : List String := ["claude-3-5-sonnet", "gpt-4o", "gpt-4o-mini"]

/-- The model list of `simulate_traffic`. -/
def simModels : List String :=
  ["claude-3-5-sonnet", "gpt-4o", "gpt-4o-mini", "llama-3.1-70b"]

/-- The 20 sample events `get_savings` seeds when `cache_events` is empty. -/
def seedEvents (now : String) (draws : ℕ → Draw) : List CacheEvent :=
  (List.range 20).map fun i => mkCacheEvent now seedModels (draws i)

/-- The events appended by one `simulate_traffic` call (`for i in range(requests)`). -/
def simEvents (now : String) (requests : ℕ) (draws : ℕ → Draw) : List CacheEvent :=
  (List.range requests).map fun i => mkCacheEvent now simModels (draws i)

/-- Division that fails on a zero denominator, as a float division raising
`ZeroDivisionError` would. -/
def checkedDiv (a b : ℚ) : Option ℚ := if b = 0 then none else some (a / b)

/-- Python `round(x, 1)` over ℚ (ties differ from float banker's rounding only
at exact halves, which no claim depends on). -/
def round1 (x : ℚ) : ℚ := ((round (10 * x) : ℤ) : ℚ) / 10

/-- Python `round(x, 2)` over ℚ. -/
def round2 (x : ℚ) : ℚ := ((round (100 * x) : ℤ) : ℚ) / 100

/-- Python `round(x, 4)` over ℚ. -/
def round4 (x : ℚ) : ℚ := ((round (10000 * x) : ℤ) : ℚ) / 10000

/-- Source expression `sum(1 for e in cache_events if e["event_type"] == "hit")`. -/
def totalHits (events : List CacheEvent) : ℕ :=
  events.countP fun e => decide (e.event_type = "hit")

/-- Source expression `sum(1 for e in cache_events if e["event_type"] == "miss")`. -/
def totalMisses (events : List CacheEvent) : ℕ :=
  events.countP fun e => decide (e.event_type = "miss")

/-- Source expression `sum(e["saved_dollars"] for e in cache_events)`. -/
def totalSaved (events : List CacheEvent) : ℚ :=
  (events.map (·.saved_dollars)).sum

/-- Source expression `sum(e["latency_ms"] for e in cache_events if e["event_type"] == "hit")`. -/
def hitLatencySum (events : List CacheEvent) : ℕ :=
  ((events.filter fun e => decide (e.event_type = "hit")).map (·.latency_ms)).sum

/-- Source expression `sum(e["latency_ms"] for e in cache_events if e["event_type"] == "miss")`. -/
def missLatencySum (events : List CacheEvent) : ℕ :=
  ((events.filter fun e => decide (e.event_type = "miss")).map (·.latency_ms)).sum

/-- The `summary` block of the `/savings` response. -/
structure SavingsSummary where
  total_requests : ℕ
  cache_hits : ℕ
  cache_misses : ℕ
  hit_rate_percent : ℚ
  total_saved_dollars : ℚ
  deriving DecidableEq

/-- The `latency` block of the `/savings` response. -/
structure SavingsLatency where
  avg_hit_latency_ms : ℤ
  avg_miss_latency_ms : ℤ
  latency_improvement_percent : ℚ
  deriving DecidableEq

/-- The `/savings` response (static strings and the echoed price table omitted). -/
structure SavingsResponse where
  summary : SavingsSummary
  latency : SavingsLatency
  monthly_requests : ℕ
  projected_monthly_savings_dollars : ℚ
  timestamp : String
  deriving DecidableEq

/-- Handler of `GET /savings`: seed 20 sample events when the log is empty,
then aggregate. Every division the handler performs on aggregate data goes
through `checkedDiv`, so the result is `none` exactly when Python would raise
`ZeroDivisionError`. -/
def get_savings (now : String) (draws : ℕ → Draw) (s : ServerState) :
    Option (ServerState × SavingsResponse) := do
  -- Simulate some cache events for demo (appended only when the log is empty)
  let cache_events :=
    if s.cache_events.isEmpty then s.cache_events ++ seedEvents now draws
    else s.cache_events
  let total_hits := totalHits cache_events
  let total_misses := totalMisses cache_events
  let total_saved := totalSaved cache_events
  let avg_hit_latency ←
    checkedDiv (hitLatencySum cache_events : ℚ) (max (total_hits : ℚ) 1)
  let avg_miss_latency ←
    checkedDiv (missLatencySum cache_events : ℚ) (max (total_misses : ℚ) 1)
  -- Project monthly savings (assuming 100k requests/month)
  let hit_rate ← checkedDiv (total_hits : ℚ) (max (cache_events.length : ℚ) 1)
  let projected_monthly_requests : ℕ := 100000
  let avg_input_tokens : ℚ := 12000
  let avg_cost_per_million : ℚ := 2.5
  let projected_monthly_savings :=
    (projected_monthly_requests : ℚ) * hit_rate * avg_input_tokens / 1000000 *
      avg_cost_per_million
  let improvement_ratio ← checkedDiv avg_hit_latency (max avg_miss_latency 1)
  pure
    ({ s with cache_events := cache_events },
     { summary :=
         { total_requests := cache_events.length
           cache_hits := total_hits
           cache_misses := total_misses
           hit_rate_percent := round1 (hit_rate * 100)
           total_saved_dollars := round4 total_saved }
       latency :=
         { avg_hit_latency_ms := round avg_hit_latency
           avg_miss_latency_ms := round avg_miss_latency
           latency_improvement_percent := round1 ((1 - improvement_ratio) * 100) }
       monthly_requests := projected_monthly_requests
       projected_monthly_savings_dollars := round2 projected_monthly_savings
       timestamp := now })

/-- Response of `POST /simulate-traffic`. -/
structure SimulateResponse where
  simulated_requests : ℕ
  total_events : ℕ
  message : String
  deriving DecidableEq

/-- Handler of `POST /simulate-traffic`: append one event per simulated
request, then keep only the last 500 events. -/
def simulate_traffic (now : String) (requests : ℕ) (draws : ℕ → Draw)
    (s : ServerState) : ServerState × SimulateResponse :=
  let cache_events := s.cache_events ++ simEvents now requests draws
  -- Keep only last 500 events
  let cache_events :=
    if cache_events.length > 500 then cache_events.drop (cache_events.length - 500)
    else cache_events
  ({ s with cache_events := cache_events },
   { simulated_requests := requests
     total_events := cache_events.length
     message := "Traffic simulated. Check /savings for the dashboard." })

/-- Handler of `POST /results`: stamp, append, keep only the last 100. -/
def receive_results (now : String) (result : TestResult) (s : ServerState) :
    ServerState × ℕ :=
  let entry := { result with received_at := now }
  let results := s.test_results ++ [entry]
  let results := if results.length > 100 then results.tail else results
  ({ s with test_results := results }, results.length)

/-- Handler of `POST /backend-comparison`: stamp, append, keep only the last 200. -/
def receive_backend_comparison (now : String) (result : TestResult)
    (s : ServerState) : ServerState × ℕ :=
  let entry := { result with received_at := now }
  let comparisons := s.backend_comparisons ++ [entry]
  let comparisons := if comparisons.length > 200 then comparisons.tail else comparisons
  ({ s with backend_comparisons := comparisons }, comparisons.length)

/-- The grouping key of `GET /backend-comparison`:
`comp.get("context_size", 0)`. The stored dict always materialises the key
(`result.dict()` keeps `None` fields), so `.get` returns the stored
`Optional` value and the `0` default is dead code. -/
def contextKey (e : TestResult) : Option Int := e.context_size

/-- First occurrences of the grouping keys, in insertion order — the key order
of the `defaultdict(list)` built by the loop. -/
def contextKeys (l : List TestResult) : List (Option Int) :=
  l.foldl (fun ks e => if contextKey e ∈ ks then ks else ks ++ [contextKey e]) []

/-- The `by_context` dict as an association list: for each first-occurrence
key, the stored records carrying that key, in insertion order. -/
def byContext (l : List TestResult) : List (Option Int × List TestResult) :=
  (contextKeys l).map fun k => (k, l.filter fun e => decide (contextKey e = k))

/-- The `min` key function `x.get("performance_score", 999)`: again the key is
always present in the stored dict, so this is the stored `Optional` value. -/
def scoreKey (e : TestResult) : Option ℚ := e.performance_score

/-- The loop inside `min(comps, key=...)`: keep a best-so-far, replacing it on
a strict key improvement. Comparing `None` with anything (Python `<` between
`NoneType` and a number, or two `NoneType`s) raises `TypeError`, modelled by
`Except.error`. -/
def minLoop (best : TestResult) : List TestResult → Except Unit TestResult
  | [] => .ok best
  | x :: xs =>
    match scoreKey x, scoreKey best with
    | some a, some b => minLoop (if a < b then x else best) xs
    | _, _ => .error ()

/-- Source expression `min(comps, key=lambda x: x.get("performance_score", 999))`. -/
def pyMin : List TestResult → Except Unit TestResult
  | [] => .error ()
  | x :: xs => minLoop x xs

/-- One value of the `winners` dict. -/
structure WinnerInfo where
  winner : Option String
  score : Option ℚ
  ttft_ms : Option ℚ
  all_backends : List (Option String)
  deriving DecidableEq

/-- Response of `GET /backend-comparison`. -/
structure ComparisonResponse where
  total_comparisons : ℕ
  winners_by_context : List (Option Int × WinnerInfo)
  recent_comparisons : List TestResult
  timestamp : String
  deriving DecidableEq

/-- The winner entry built for one group. -/
def winnerOf (comps : List TestResult) (w : TestResult) : WinnerInfo :=
  { winner := w.backend
    score := w.performance_score
    ttft_ms := w.avg_ttft_ms
    all_backends := comps.map (·.backend) }

/-- One iteration of the winner loop (`for ctx, comps in by_context.items():
if comps: ...`): skip empty groups, otherwise run `min` and record the
winner entry. -/
def winnersStep (acc : List (Option Int × WinnerInfo))
    (g : Option Int × List TestResult) :
    Except Unit (List (Option Int × WinnerInfo)) :=
  if g.2.isEmpty then pure acc
  else do
    let w ← pyMin g.2
    pure (acc ++ [(g.1, winnerOf g.2 w)])

/-- Handler of `GET /backend-comparison`: group by context size, then report
each group's `min`-by-score record. Any `TypeError` from `min` propagates. -/
def get_backend_comparison (now : String) (s : ServerState) :
    Except Unit ComparisonResponse := do
  let winners ← (byContext s.backend_comparisons).foldlM winnersStep
    ([] : List (Option Int × WinnerInfo))
  pure
    { total_comparisons := s.backend_comparisons.length
      winners_by_context := winners
      recent_comparisons :=
        s.backend_comparisons.drop (s.backend_comparisons.length - 10)
      timestamp := now }

/-! ## Helper lemmas -/

theorem getLast?_drop_of_lt {α : Type} (l : List α) (k : ℕ) (h : k < l.length) :
    (l.drop k).getLast? = l.getLast? := by
  conv_rhs => rw [← List.take_append_drop k l]
  rw [List.getLast?_append_of_ne_nil]
  intro hnil
  rw [List.drop_eq_nil_iff] at hnil
  omega

/-- The net effect of a sequence of `POST /clear` calls, each fed its
timestamp and request body. -/
def applyClears (inputs : List (String × ClearRequest)) (s : ServerState) :
    ServerState :=
  inputs.foldl (fun t p => (clear_cache p.1 p.2 t).1) s

theorem applyClears_log (inputs : List (String × ClearRequest)) :
    (applyClears inputs initialState).invalidation_log =
      (inputs.map fun p => clearEntry p.1 p.2).drop (inputs.length - 100) := by
  induction inputs using List.reverseRecOn with
  | nil => rfl
  | append_singleton l p ih =>
    have hstep : applyClears (l ++ [p]) initialState =
        (clear_cache p.1 p.2 (applyClears l initialState)).1 := by
      simp [applyClears, List.foldl_append]
    have hlen : (applyClears l initialState).invalidation_log.length =
        min l.length 100 := by
      rw [ih]
      simp only [List.length_drop, List.length_map]
      omega
    rw [hstep, clear_cache]
    simp only [List.map_append, List.map_cons, List.map_nil, List.length_append,
      List.length_cons, List.length_nil]
    by_cases hN : l.length < 100
    · rw [if_neg (by simp [List.length_append, hlen]; omega)]
      rw [ih, Nat.sub_eq_zero_of_le (by omega), Nat.sub_eq_zero_of_le (by omega)]
      simp
    · rw [if_pos (by simp [List.length_append, hlen]; omega)]
      rw [ih]
      have hne : ((l.map fun p => clearEntry p.1 p.2).drop (l.length - 100)) ≠ [] := by
        intro hnil
        rw [List.drop_eq_nil_iff] at hnil
        simp only [List.length_map] at hnil
        omega
      obtain ⟨y, ys, hys⟩ := List.exists_cons_of_ne_nil hne
      rw [hys]
      have h1 : l.length + 1 - 100 = (l.length - 100) + 1 := by omega
      rw [h1, List.drop_append_of_le_length (by simp; omega), ← List.tail_drop, hys]
      rfl

/-- C1: starting from process start, every sequence of clear calls leaves the
invalidation log holding the `min N 100` most recent entries in call order
(so at most 100, and exactly the last 100 once `N > 100`). The statement is
quantified over all call sequences, hence covers every intermediate prefix. -/
theorem c1_invalidation_log_fifo_cap (inputs : List (String × ClearRequest)) :
    (applyClears inputs initialState).invalidation_log =
      (inputs.map fun p => clearEntry p.1 p.2).drop (inputs.length - 100) ∧
    (applyClears inputs initialState).invalidation_log.length =
      min inputs.length 100 := by
  refine ⟨applyClears_log inputs, ?_⟩
  rw [applyClears_log inputs]
  simp only [List.length_drop, List.length_map]
  omega

/-- C5 fails as stated: the message names the document only when
`request.document_id` is *truthy*, and `0` is falsy in Python. With
`document_id = 0` present in the request, the response message is the bare
"Cache cleared", which does not contain the document identifier "0". -/
theorem c5_counterexample :
    ((clear_cache "t" { document_id := some 0, reason := some "edit" }
        initialState).2.message = "Cache cleared") ∧
    ¬ List.IsInfix ((toString (0 : ℤ)).data)
        ((clear_cache "t" { document_id := some 0, reason := some "edit" }
          initialState).2.message).data := by
  exact ⟨rfl, by decide⟩

theorem clear_log_len_pos (now : String) (request : ClearRequest)
    (s : ServerState) :
    1 ≤ (clear_cache now request s).1.invalidation_log.length := by
  simp only [clear_cache]
  split
  · rename_i hgt
    simp only [List.length_tail, List.length_append, List.length_cons,
      List.length_nil]
    simp only [List.length_append, List.length_cons, List.length_nil] at hgt
    omega
  · simp [List.length_append]

theorem clear_log_getLast (now : String) (request : ClearRequest)
    (s : ServerState) :
    (clear_cache now request s).1.invalidation_log.getLast?
      = some (clearEntry now request) := by
  simp only [clear_cache]
  split
  · rename_i hgt
    cases hlog : s.invalidation_log with
    | nil =>
      rw [hlog] at hgt
      simp at hgt
    | cons y ys =>
      simp only [List.cons_append, List.tail_cons]
      exact List.getLast?_concat _
  · exact List.getLast?_concat _

/-- C5 amended: whenever `document_id` is present *and nonzero*, the clear
response's message contains its decimal representation, and afterwards
`GET /stats` reports at least one invalidation whose most recent entry carries
that `document_id` (the claim's `42` is the witness instance). -/
theorem c5_clear_message_and_stats (now now2 : String) (request : ClearRequest)
    (s : ServerState) (d : ℤ) (hd : request.document_id = some d) (hnz : d ≠ 0) :
    List.IsInfix ((toString d).data)
      ((clear_cache now request s).2.message).data ∧
    1 ≤ (get_stats now2 (clear_cache now request s).1).total_invalidations ∧
    ∃ e, (get_stats now2 (clear_cache now request s).1).recent_invalidations.getLast?
          = some e ∧ e.document_id = some d := by
  refine ⟨?_, ?_, ?_⟩
  · show List.IsInfix _ ((clear_cache now request s).2.message).data
    simp only [clear_cache, hd]
    rw [if_pos (show optIntTruthy (some d) = true by simp [optIntTruthy, hnz])]
    simp only [Option.getD_some]
    rw [String.data_append]
    exact (List.suffix_append _ _).isInfix
  · simp only [get_stats]
    exact clear_log_len_pos now request s
  · refine ⟨clearEntry now request, ?_, by simp [clearEntry, hd]⟩
    simp only [get_stats]
    rw [getLast?_drop_of_lt _ _
      (Nat.sub_lt (clear_log_len_pos now request s) (by norm_num))]
    exact clear_log_getLast now request s

/-- Closed witness for `c5_clear_message_and_stats` at `document_id = 42`. -/
theorem c5_clear_message_and_stats_witness :
    List.IsInfix ((toString (42 : ℤ)).data)
      ((clear_cache "t" { document_id := some 42, reason := some "edit" }
        initialState).2.message).data ∧
    1 ≤ (get_stats "u" (clear_cache "t"
          { document_id := some 42, reason := some "edit" }
          initialState).1).total_invalidations ∧
    ∃ e, (get_stats "u" (clear_cache "t"
            { document_id := some 42, reason := some "edit" }
            initialState).1).recent_invalidations.getLast? = some e ∧
         e.document_id = some 42 :=
  c5_clear_message_and_stats "t" "u"
    { document_id := some 42, reason := some "edit" } initialState 42 rfl
    (by decide)

/-- C9: `POST /lookup` writes none of the four logs (the returned state is the
input state), and `layout_info` depends only on the token count: requests with
equally long token lists get equal layouts. -/
theorem c9_lookup_frame_and_layout (now : String) (request : LookupRequest)
    (s : ServerState) :
    (lookup_cache now request s).1 = s ∧
    ∀ (now2 : String) (request2 : LookupRequest) (s2 : ServerState),
      request.tokens.length = request2.tokens.length →
      (lookup_cache now request s).2.layout_info =
        (lookup_cache now2 request2 s2).2.layout_info := by
  refine ⟨rfl, ?_⟩
  intro now2 request2 s2 h
  simp [lookup_cache, h]

/-- Closed witness for `c9_lookup_frame_and_layout`. -/
theorem c9_lookup_frame_and_layout_witness :
    (lookup_cache "t" { tokens := [1, 2] } initialState).1 = initialState ∧
    (lookup_cache "t" { tokens := [1, 2] } initialState).2.layout_info =
      (lookup_cache "u" { tokens := [3, 4] } initialState).2.layout_info :=
  ⟨(c9_lookup_frame_and_layout "t" { tokens := [1, 2] } initialState).1,
   (c9_lookup_frame_and_layout "t" { tokens := [1, 2] } initialState).2
     "u" { tokens := [3, 4] } initialState rfl⟩

theorem checkedDiv_max_one (a b : ℚ) :
    checkedDiv a (max b 1) = some (a / max b 1) := by
  rw [checkedDiv, if_neg]
  intro h
  have h1 : (1 : ℚ) ≤ max b 1 := le_max_right _ _
  rw [h] at h1
  norm_num at h1

theorem get_savings_spec (now : String) (draws : ℕ → Draw) (s : ServerState) :
    ∃ s1 r1, get_savings now draws s = some (s1, r1) ∧
      s1.cache_events =
        (if s.cache_events.isEmpty then s.cache_events ++ seedEvents now draws
         else s.cache_events) ∧
      s1.invalidation_log = s.invalidation_log ∧
      s1.test_results = s.test_results ∧
      s1.backend_comparisons = s.backend_comparisons ∧
      r1.summary.total_requests = s1.cache_events.length ∧
      r1.summary.cache_hits = totalHits s1.cache_events ∧
      r1.summary.cache_misses = totalMisses s1.cache_events ∧
      r1.summary.hit_rate_percent =
        round1 ((totalHits s1.cache_events : ℚ) /
          max (s1.cache_events.length : ℚ) 1 * 100) ∧
      r1.summary.total_saved_dollars = round4 (totalSaved s1.cache_events) := by
  simp only [get_savings, checkedDiv_max_one, Option.bind_eq_bind,
    Option.some_bind, pure]
  exact ⟨_, _, rfl, rfl, rfl, rfl, rfl, rfl, rfl, rfl, rfl, rfl⟩

/-- C6: `GET /savings` never divides by zero, whatever the state of the
cache-event log: every division's denominator is floored at 1, so the
`Option`-valued embedding (which returns `none` exactly where Python would
raise `ZeroDivisionError`) always returns a response. -/
theorem c6_savings_never_divides_by_zero (now : String) (draws : ℕ → Draw)
    (s : ServerState) :
    (get_savings now draws s).isSome = true := by
  obtain ⟨s1, r1, h, -⟩ := get_savings_spec now draws s
  rw [h]
  rfl

theorem savings_state_ne_nil (now : String) (draws : ℕ → Draw) (s : ServerState)
    (s1 : ServerState) (r1 : SavingsResponse)
    (h : get_savings now draws s = some (s1, r1)) :
    s1.cache_events ≠ [] := by
  obtain ⟨s1', r1', h', hc', -⟩ := get_savings_spec now draws s
  rw [h] at h'
  have hs : s1 = s1' := congrArg Prod.fst (Option.some.inj h')
  rw [hs, hc']
  split
  · rename_i hemp
    rw [List.isEmpty_iff] at hemp
    rw [hemp, List.nil_append]
    intro hnil
    have : (seedEvents now draws).length = 20 := by simp [seedEvents]
    rw [hnil] at this
    simp at this
  · rename_i hemp
    rw [List.isEmpty_iff] at hemp
    exact hemp

/-- C4: two `/savings` reads with no intervening write agree on
`total_requests` (seeding happens at most once, only on an empty log), and in
both responses the summary totals are direct aggregations over the cache-event
log as it stands during that call. -/
theorem c4_savings_idempotent_aggregation (now1 now2 : String)
    (d1 d2 : ℕ → Draw) (s : ServerState) :
    ∃ s1 r1 s2 r2,
      get_savings now1 d1 s = some (s1, r1) ∧
      get_savings now2 d2 s1 = some (s2, r2) ∧
      r2.summary.total_requests = r1.summary.total_requests ∧
      s2 = s1 ∧
      r1.summary.total_requests = s1.cache_events.length ∧
      r1.summary.cache_hits = totalHits s1.cache_events ∧
      r1.summary.cache_misses = totalMisses s1.cache_events ∧
      r1.summary.total_saved_dollars = round4 (totalSaved s1.cache_events) ∧
      r2.summary.total_requests = s2.cache_events.length ∧
      r2.summary.cache_hits = totalHits s2.cache_events ∧
      r2.summary.cache_misses = totalMisses s2.cache_events ∧
      r2.summary.total_saved_dollars = round4 (totalSaved s2.cache_events) := by
  obtain ⟨s1, r1, h1, hc1, -, -, -, ht1, hh1, hm1, hp1, hs1⟩ :=
    get_savings_spec now1 d1 s
  obtain ⟨s2, r2, h2, hc2, hi2, hr2, hb2, ht2, hh2, hm2, hp2, hs2⟩ :=
    get_savings_spec now2 d2 s1
  have hne : s1.cache_events ≠ [] := savings_state_ne_nil now1 d1 s s1 r1 h1
  have hc2' : s2.cache_events = s1.cache_events := by
    rw [hc2, if_neg]
    simp [List.isEmpty_iff, hne]
  have hs2s1 : s2 = s1 := by
    calc s2 = ⟨s2.invalidation_log, s2.cache_events, s2.test_results,
              s2.backend_comparisons⟩ := rfl
      _ = ⟨s1.invalidation_log, s1.cache_events, s1.test_results,
            s1.backend_comparisons⟩ := by rw [hi2, hc2', hr2, hb2]
      _ = s1 := rfl
  refine ⟨s1, r1, s2, r2, h1, h2, ?_, hs2s1, ht1, hh1, hm1, hs1, ht2, hh2, hm2,
    hs2⟩
  rw [ht2, ht1, hc2']

/-- C7: every write to the cache-event log leaves it at a length of at most
500, retaining the most recent events in insertion order. `simulate_traffic`
(for any request count and any prior state) keeps exactly the suffix of the
appended log that fits in 500; the `/savings` seeding step only ever writes 20
events into an empty log. -/
theorem c7_cache_events_cap (now : String) (requests : ℕ) (draws : ℕ → Draw)
    (s : ServerState) :
    ((simulate_traffic now requests draws s).1.cache_events =
        (s.cache_events ++ simEvents now requests draws).drop
          ((s.cache_events ++ simEvents now requests draws).length - 500) ∧
      (simulate_traffic now requests draws s).1.cache_events.length ≤ 500) ∧
    ∀ (now2 : String) (d2 : ℕ → Draw),
      ∃ s1 r1, get_savings now2 d2 { s with cache_events := [] } = some (s1, r1) ∧
        s1.cache_events = seedEvents now2 d2 ∧ s1.cache_events.length ≤ 500 := by
  refine ⟨⟨?_, ?_⟩, ?_⟩
  · simp only [simulate_traffic]
    split
    · rfl
    · rename_i hle
      rw [Nat.sub_eq_zero_of_le (by omega), List.drop_zero]
  · simp only [simulate_traffic]
    split
    · rename_i h
      simp only [List.length_drop]
      omega
    · rename_i h
      omega
  · intro now2 d2
    obtain ⟨s1, r1, h1, hc1, -⟩ := get_savings_spec now2 d2
      { s with cache_events := [] }
    have hseed : s1.cache_events = seedEvents now2 d2 := by
      rw [hc1]
      simp
    exact ⟨s1, r1, h1, hseed, by rw [hseed]; simp [seedEvents]⟩

theorem simulate_traffic_length (now : String) (requests : ℕ)
    (draws : ℕ → Draw) (s : ServerState) :
    (simulate_traffic now requests draws s).1.cache_events.length =
      min (s.cache_events.length + requests) 500 := by
  have hsim : (simEvents now requests draws).length = requests := by
    simp [simEvents]
  simp only [simulate_traffic]
  split
  · rename_i h
    simp only [List.length_drop, List.length_append, hsim] at h ⊢
    omega
  · rename_i h
    simp only [List.length_append, hsim] at h ⊢
    omega

theorem round1_bounds (x : ℚ) (h0 : 0 ≤ x) (h1 : x ≤ 100) :
    0 ≤ round1 x ∧ round1 x ≤ 100 := by
  have hlo : (0 : ℤ) ≤ round (10 * x) := by
    rw [round_eq]
    exact Int.floor_nonneg.2 (by linarith)
  have hhi : round (10 * x) ≤ 1000 := by
    rw [round_eq]
    have hle : 10 * x + 1 / 2 ≤ (1000 : ℤ) + (1 / 2 : ℚ) := by
      push_cast
      linarith
    calc ⌊10 * x + 1 / 2⌋ ≤ ⌊((1000 : ℤ) : ℚ) + (1 / 2 : ℚ)⌋ :=
          Int.floor_le_floor hle
      _ = 1000 + ⌊(1 / 2 : ℚ)⌋ := Int.floor_int_add _ _
      _ = 1000 := by norm_num
  constructor
  · refine div_nonneg ?_ (by norm_num)
    exact_mod_cast hlo
  · rw [round1, div_le_iff₀ (by norm_num : (0 : ℚ) < 10)]
    calc ((round (10 * x) : ℤ) : ℚ) ≤ ((1000 : ℤ) : ℚ) := by exact_mod_cast hhi
      _ = 100 * 10 := by norm_num

theorem hit_rate_unit_interval (events : List CacheEvent) :
    0 ≤ (totalHits events : ℚ) / max (events.length : ℚ) 1 ∧
      (totalHits events : ℚ) / max (events.length : ℚ) 1 ≤ 1 := by
  have hpos : (0 : ℚ) < max (events.length : ℚ) 1 :=
    lt_of_lt_of_le one_pos (le_max_right _ _)
  constructor
  · exact div_nonneg (Nat.cast_nonneg _) hpos.le
  · refine div_le_one_of_le₀ ?_ hpos.le
    have hcount : totalHits events ≤ events.length := by
      rw [totalHits]
      exact List.countP_le_length _
    calc (totalHits events : ℚ) ≤ (events.length : ℚ) := by exact_mod_cast hcount
      _ ≤ max (events.length : ℚ) 1 := le_max_left _ _

/-- C8: from any starting state, simulating 10 requests then reading
`/savings` yields `total_requests ≥ 10` and a `hit_rate_percent` within
`[0, 100]`. -/
theorem c8_simulate_then_savings_bounds (now1 now2 : String)
    (d1 d2 : ℕ → Draw) (s : ServerState) :
    ∃ s2 r,
      get_savings now2 d2 (simulate_traffic now1 10 d1 s).1 = some (s2, r) ∧
      10 ≤ r.summary.total_requests ∧
      0 ≤ r.summary.hit_rate_percent ∧ r.summary.hit_rate_percent ≤ 100 := by
  set s1 := (simulate_traffic now1 10 d1 s).1 with hs1
  have hlen : 10 ≤ s1.cache_events.length := by
    rw [hs1, simulate_traffic_length]
    omega
  have hne : s1.cache_events ≠ [] := by
    intro hnil
    rw [hnil] at hlen
    simp at hlen
  obtain ⟨s2, r, h2, hc2, -, -, -, ht2, -, -, hp2, -⟩ :=
    get_savings_spec now2 d2 s1
  have hc2' : s2.cache_events = s1.cache_events := by
    rw [hc2, if_neg]
    simp [List.isEmpty_iff, hne]
  refine ⟨s2, r, h2, ?_, ?_⟩
  · rw [ht2, hc2']
    exact hlen
  · rw [hp2]
    obtain ⟨hr0, hr1⟩ := hit_rate_unit_interval s2.cache_events
    exact round1_bounds _ (by positivity) (by nlinarith)

theorem getD_mem_of_lt {α : Type} (l : List α) (i : ℕ) (d : α)
    (h : i < l.length) : l.getD i d ∈ l := by
  rw [List.getD_eq_getElem?_getD, List.getElem?_eq_getElem h, Option.getD_some]
  exact List.getElem_mem h

/-- The costing model shared by the seeding step and `simulate_traffic`:
misses save nothing; hits save `input_tokens / 1e6` times the model's input
price from the pricing table. -/
def eventCostOk (e : CacheEvent) : Prop :=
  (e.event_type = "miss" → e.saved_dollars = 0) ∧
  (e.event_type = "hit" → ∃ pr, TOKEN_PRICING e.model = some pr ∧
    e.saved_dollars = (e.input_tokens : ℚ) / 1000000 * pr.1)

theorem mkCacheEvent_cost (now : String) (models : List String) (d : Draw)
    (hne : models ≠ [])
    (hpr : ∀ m ∈ models, (TOKEN_PRICING m).isSome = true) :
    eventCostOk (mkCacheEvent now models d) := by
  have hlt : d.modelIdx % models.length < models.length :=
    Nat.mod_lt _ (List.length_pos.2 hne)
  have hmem : models.getD (d.modelIdx % models.length) "" ∈ models :=
    getD_mem_of_lt _ _ _ hlt
  obtain ⟨pr, hsome⟩ :=
    Option.isSome_iff_exists.1 (hpr _ hmem)
  cases hh : d.isHit with
  | true =>
    refine ⟨fun habs => ?_, fun _ => ⟨pr, ?_, ?_⟩⟩
    · simp only [mkCacheEvent, hh, if_true] at habs
      exact absurd habs (by decide)
    · simpa [mkCacheEvent] using hsome
    · simp only [mkCacheEvent, hh, if_true, inputPriceOf, hsome]
      rfl
  | false =>
    refine ⟨fun _ => ?_, fun habs => ?_⟩
    · simp [mkCacheEvent, hh]
    · simp only [mkCacheEvent, hh, if_false] at habs
      exact absurd habs (by decide)

/-- C2: every event synthesized by `simulate_traffic` and by the `/savings`
seeding step saves 0 dollars on a miss and `(input_tokens / 1e6) * input price
of its model` on a hit, the model always being present in the pricing table. -/
theorem c2_saved_dollars_formula (now : String) (requests : ℕ)
    (draws : ℕ → Draw) :
    (∀ e ∈ simEvents now requests draws, eventCostOk e) ∧
    (∀ e ∈ seedEvents now draws, eventCostOk e) := by
  constructor
  · intro e he
    simp only [simEvents, List.mem_map, List.mem_range] at he
    obtain ⟨i, -, rfl⟩ := he
    exact mkCacheEvent_cost now simModels (draws i) (by decide) (by decide)
  · intro e he
    simp only [seedEvents, List.mem_map, List.mem_range] at he
    obtain ⟨i, -, rfl⟩ := he
    exact mkCacheEvent_cost now seedModels (draws i) (by decide) (by decide)

/-- Closed witness for `c2_saved_dollars_formula`: one concrete hit event from
the traffic simulator and one concrete miss event from the seeding step. -/
theorem c2_saved_dollars_formula_witness :
    eventCostOk (mkCacheEvent "t" simModels
      { modelIdx := 0, isHit := true, input_tokens := 5000, latency_ms := 100 }) ∧
    eventCostOk (mkCacheEvent "t" seedModels
      { modelIdx := 1, isHit := false, input_tokens := 7000, latency_ms := 2500 }) :=
  ⟨(c2_saved_dollars_formula "t" 1
      (fun _ => { modelIdx := 0, isHit := true, input_tokens := 5000,
                  latency_ms := 100 })).1 _
      (List.mem_map.2 ⟨0, List.mem_range.2 one_pos, rfl⟩),
   (c2_saved_dollars_formula "t" 1
      (fun _ => { modelIdx := 1, isHit := false, input_tokens := 7000,
                  latency_ms := 2500 })).2 _
      (List.mem_map.2 ⟨0, List.mem_range.2 (by norm_num), rfl⟩)⟩

/-- Boolean "score of the first argument ≤ score of the second" on the
optional keys: comparable when both are present; a record with an absent score
ties only with an absent score. -/
def scoreLeB : Option ℚ → Option ℚ → Bool
  | some a, some b => decide (a ≤ b)
  | none, none => true
  | _, _ => false

/-- Boolean "score of the first argument < score of the second"; `false`
whenever either side is absent. -/
def scoreLtB : Option ℚ → Option ℚ → Bool
  | some a, some b => decide (a < b)
  | _, _ => false

theorem scoreLeB_refl (o : Option ℚ) : scoreLeB o o = true := by
  cases o <;> simp [scoreLeB]

theorem scoreLtB_irrefl (o : Option ℚ) : scoreLtB o o = false := by
  cases o <;> simp [scoreLtB]

/-- The pure best-so-far loop `minLoop` reduces to when every key is present. -/
def selectMin (f : TestResult → ℚ) (best : TestResult) :
    List TestResult → TestResult
  | [] => best
  | x :: xs => selectMin f (if f x < f best then x else best) xs

theorem head?_dropWhile_mem {α : Type} (p : α → Bool) (l : List α) (a : α)
    (h : (l.dropWhile p).head? = some a) : a ∈ l := by
  cases hdw : l.dropWhile p with
  | nil =>
    rw [hdw] at h
    cases h
  | cons x t =>
    rw [hdw] at h
    have hax : a = x := (Option.some.inj h).symm
    subst hax
    exact (List.dropWhile_suffix p).subset (hdw ▸ List.mem_cons_self a t)

theorem dropWhile_congr_of_mem {α : Type} (p q : α → Bool) :
    ∀ l : List α, (∀ e ∈ l, p e = q e) → l.dropWhile p = l.dropWhile q := by
  intro l
  induction l with
  | nil => intro _; rfl
  | cons x t ih =>
    intro h
    rw [List.dropWhile_cons, List.dropWhile_cons, h x (List.mem_cons_self _ _),
      ih fun e he => h e (List.mem_cons_of_mem _ he)]

theorem selectMin_spec (f : TestResult → ℚ) :
    ∀ (xs : List TestResult) (best : TestResult),
      (∀ e ∈ best :: xs, f (selectMin f best xs) ≤ f e) ∧
      ((best :: xs).dropWhile
          (fun e => decide (f (selectMin f best xs) < f e))).head?
        = some (selectMin f best xs) := by
  intro xs
  induction xs with
  | nil =>
    intro best
    refine ⟨?_, ?_⟩
    · intro e he
      rw [List.mem_singleton] at he
      subst he
      exact le_refl _
    · simp [selectMin, List.dropWhile_cons]
  | cons x xs ih =>
    intro best
    by_cases hx : f x < f best
    · have hsel : selectMin f best (x :: xs) = selectMin f x xs := by
        rw [selectMin, if_pos hx]
      obtain ⟨ihle, ihdw⟩ := ih x
      rw [hsel]
      have hwx : f (selectMin f x xs) ≤ f x := ihle x (List.mem_cons_self _ _)
      refine ⟨?_, ?_⟩
      · intro e he
        rcases List.mem_cons.1 he with rfl | he'
        · exact le_of_lt (lt_of_le_of_lt hwx hx)
        · exact ihle e he'
      · rw [List.dropWhile_cons, if_pos (by simpa using lt_of_le_of_lt hwx hx)]
        exact ihdw
    · have hsel : selectMin f best (x :: xs) = selectMin f best xs := by
        rw [selectMin, if_neg hx]
      obtain ⟨ihle, ihdw⟩ := ih best
      rw [hsel]
      have hwb : f (selectMin f best xs) ≤ f best :=
        ihle best (List.mem_cons_self _ _)
      refine ⟨?_, ?_⟩
      · intro e he
        rcases List.mem_cons.1 he with rfl | he'
        · exact hwb
        · rcases List.mem_cons.1 he' with rfl | he''
          · exact le_trans hwb (not_lt.1 hx)
          · exact ihle e (List.mem_cons_of_mem _ he'')
      · by_cases hb : f (selectMin f best xs) < f best
        · have hpx : f (selectMin f best xs) < f x :=
            lt_of_lt_of_le hb (not_lt.1 hx)
          rw [List.dropWhile_cons] at ihdw ⊢
          rw [if_pos (by simpa using hb)] at ihdw
          rw [if_pos (by simpa using hb), List.dropWhile_cons,
            if_pos (by simpa using hpx)]
          exact ihdw
        · rw [List.dropWhile_cons] at ihdw ⊢
          rw [if_neg (by simpa using hb)] at ihdw
          rw [if_neg (by simpa using hb)]
          simpa using ihdw

theorem minLoop_eq_selectMin :
    ∀ (xs : List TestResult) (best : TestResult) (b : ℚ),
      scoreKey best = some b →
      (∀ x ∈ xs, (scoreKey x).isSome = true) →
      minLoop best xs =
        .ok (selectMin (fun e => (scoreKey e).getD 999) best xs) := by
  intro xs
  induction xs with
  | nil =>
    intro best b hb hxs
    rfl
  | cons x xs ih =>
    intro best b hb hxs
    obtain ⟨a, ha⟩ :=
      Option.isSome_iff_exists.1 (hxs x (List.mem_cons_self _ _))
    have hxs' : ∀ y ∈ xs, (scoreKey y).isSome = true := fun y hy =>
      hxs y (List.mem_cons_of_mem _ hy)
    simp only [minLoop, ha, hb, selectMin, Option.getD_some]
    by_cases hlt : a < b
    · rw [if_pos hlt]
      exact ih x a ha hxs'
    · rw [if_neg hlt]
      exact ih best b hb hxs'

theorem minLoop_ok_cases :
    ∀ (xs : List TestResult) (best w : TestResult),
      minLoop best xs = .ok w →
      (xs = [] ∧ w = best) ∨
      ((scoreKey best).isSome = true ∧ ∀ x ∈ xs, (scoreKey x).isSome = true) := by
  intro xs
  induction xs with
  | nil =>
    intro best w h
    exact Or.inl ⟨rfl, (Except.ok.inj h).symm⟩
  | cons x xs ih =>
    intro best w h
    right
    cases hx : scoreKey x with
    | none =>
      cases hb : scoreKey best <;> simp [minLoop, hx, hb] at h
    | some a =>
      cases hb : scoreKey best with
      | none => simp [minLoop, hx, hb] at h
      | some b =>
        simp only [minLoop, hx, hb] at h
        refine ⟨by simp [hb], ?_⟩
        intro y hy
        rcases List.mem_cons.1 hy with rfl | hy'
        · simp [hx]
        · rcases ih _ _ h with ⟨hnil, -⟩ | ⟨-, hall⟩
          · rw [hnil] at hy'
            cases hy'
          · exact hall y hy'

theorem minLoop_error_of_none :
    ∀ (xs : List TestResult) (best : TestResult),
      xs ≠ [] → (∃ y ∈ best :: xs, scoreKey y = none) →
      minLoop best xs = .error () := by
  intro xs
  induction xs with
  | nil =>
    intro best h
    exact absurd rfl h
  | cons x xs ih =>
    rintro best - ⟨y, hy, hynone⟩
    cases hx : scoreKey x with
    | none =>
      cases hb : scoreKey best <;> simp [minLoop, hx, hb]
    | some a =>
      cases hb : scoreKey best with
      | none => simp [minLoop, hx, hb]
      | some b =>
        simp only [minLoop, hx, hb]
        have hyxs : y ∈ xs := by
          rcases List.mem_cons.1 hy with rfl | hy'
          · simp [hb] at hynone
          · rcases List.mem_cons.1 hy' with rfl | hy''
            · simp [hx] at hynone
            · exact hy''
        have hne : xs ≠ [] := by
          intro h0
          rw [h0] at hyxs
          cases hyxs
        exact ih _ hne ⟨y, List.mem_cons_of_mem _ hyxs, hynone⟩

theorem pyMin_ok_spec (g : List TestResult) (w : TestResult)
    (h : pyMin g = .ok w) :
    w ∈ g ∧ (∀ e ∈ g, scoreLeB (scoreKey w) (scoreKey e) = true) ∧
      (g.dropWhile (fun e => scoreLtB (scoreKey w) (scoreKey e))).head?
        = some w := by
  cases g with
  | nil => cases h
  | cons best xs =>
    rcases minLoop_ok_cases xs best w h with ⟨hnil, hwb⟩ | ⟨hbs, hall⟩
    · subst hnil
      subst hwb
      refine ⟨List.mem_cons_self _ _, ?_, ?_⟩
      · intro e he
        rw [List.mem_singleton] at he
        subst he
        exact scoreLeB_refl _
      · simp [List.dropWhile_cons, scoreLtB_irrefl]
    · obtain ⟨b, hb⟩ := Option.isSome_iff_exists.1 hbs
      have heq := minLoop_eq_selectMin xs best b hb hall
      have hml : minLoop best xs = .ok w := h
      rw [heq] at hml
      have hw : w = selectMin (fun e => (scoreKey e).getD 999) best xs :=
        (Except.ok.inj hml).symm
      obtain ⟨hle, hdw⟩ := selectMin_spec (fun e => (scoreKey e).getD 999) xs best
      rw [← hw] at hle hdw
      have hmem : w ∈ best :: xs := head?_dropWhile_mem _ _ _ hdw
      have hsome : ∀ e ∈ best :: xs, ∃ ae, scoreKey e = some ae ∧
          (fun e => (scoreKey e).getD 999) e = ae := by
        intro e he
        rcases List.mem_cons.1 he with rfl | he'
        · exact ⟨b, hb, by simp [hb]⟩
        · obtain ⟨ae, hae⟩ := Option.isSome_iff_exists.1 (hall e he')
          exact ⟨ae, hae, by simp [hae]⟩
      obtain ⟨aw, haw, hfw⟩ := hsome w hmem
      refine ⟨hmem, ?_, ?_⟩
      · intro e he
        obtain ⟨ae, hae, hfe⟩ := hsome e he
        have hfle : (fun e => (scoreKey e).getD 999) w ≤
            (fun e => (scoreKey e).getD 999) e := hle e he
        rw [hfw, hfe] at hfle
        simp [scoreLeB, haw, hae, hfle]
      · have hcong := dropWhile_congr_of_mem
          (fun e => scoreLtB (scoreKey w) (scoreKey e))
          (fun e => decide ((fun e => (scoreKey e).getD 999) w <
            (fun e => (scoreKey e).getD 999) e))
          (best :: xs) ?_
        · rw [hcong]
          exact hdw
        · intro e he
          obtain ⟨ae, hae, hfe⟩ := hsome e he
          simp [scoreLtB, haw, hae, hfw, hfe]

theorem contextKeys_origin :
    ∀ (l : List TestResult) (acc : List (Option Int)) (k : Option Int),
      k ∈ l.foldl
        (fun ks e => if contextKey e ∈ ks then ks else ks ++ [contextKey e]) acc →
      k ∈ acc ∨ ∃ e ∈ l, contextKey e = k := by
  intro l
  induction l with
  | nil =>
    intro acc k h
    exact Or.inl h
  | cons e es ih =>
    intro acc k h
    rw [List.foldl_cons] at h
    rcases ih _ k h with hacc | ⟨e', he', hk⟩
    · by_cases hm : contextKey e ∈ acc
      · rw [if_pos hm] at hacc
        exact Or.inl hacc
      · rw [if_neg hm] at hacc
        rcases List.mem_append.1 hacc with h1 | h2
        · exact Or.inl h1
        · rw [List.mem_singleton] at h2
          exact Or.inr ⟨e, List.mem_cons_self _ _, h2.symm⟩
    · exact Or.inr ⟨e', List.mem_cons_of_mem _ he', hk⟩

theorem contextKeys_acc_mono :
    ∀ (l : List TestResult) (acc : List (Option Int)) (k : Option Int),
      k ∈ acc →
      k ∈ l.foldl
        (fun ks e => if contextKey e ∈ ks then ks else ks ++ [contextKey e]) acc := by
  intro l
  induction l with
  | nil =>
    intro acc k h
    exact h
  | cons e es ih =>
    intro acc k h
    rw [List.foldl_cons]
    refine ih _ k ?_
    by_cases hm : contextKey e ∈ acc
    · rw [if_pos hm]
      exact h
    · rw [if_neg hm]
      exact List.mem_append_left _ h

theorem contextKeys_complete :
    ∀ (l : List TestResult) (acc : List (Option Int)) (e : TestResult),
      e ∈ l →
      contextKey e ∈ l.foldl
        (fun ks e => if contextKey e ∈ ks then ks else ks ++ [contextKey e]) acc := by
  intro l
  induction l with
  | nil =>
    intro acc e he
    cases he
  | cons x xs ih =>
    intro acc e he
    rw [List.foldl_cons]
    rcases List.mem_cons.1 he with rfl | he'
    · refine contextKeys_acc_mono xs _ _ ?_
      by_cases hm : contextKey e ∈ acc
      · rw [if_pos hm]
        exact hm
      · rw [if_neg hm]
        exact List.mem_append_right _ (List.mem_singleton.2 rfl)
    · exact ih _ e he'

theorem mem_contextKeys_of_mem (l : List TestResult) (e : TestResult)
    (he : e ∈ l) : contextKey e ∈ contextKeys l :=
  contextKeys_complete l [] e he

theorem byContext_group_ne_nil (l : List TestResult) :
    ∀ g ∈ byContext l, g.2 ≠ [] := by
  intro g hg
  obtain ⟨k, hk, rfl⟩ := List.mem_map.1 hg
  rw [contextKeys] at hk
  rcases contextKeys_origin l [] k hk with h0 | ⟨e, he, hke⟩
  · cases h0
  · intro hnil
    have hmem : e ∈ l.filter fun x => decide (contextKey x = k) :=
      List.mem_filter.2 ⟨he, by simp [hke]⟩
    have hnil' : l.filter (fun x => decide (contextKey x = k)) = [] := hnil
    rw [hnil'] at hmem
    cases hmem

theorem winnersFold_ok :
    ∀ (groups : List (Option Int × List TestResult))
      (acc res : List (Option Int × WinnerInfo)),
      groups.foldlM winnersStep acc = .ok res →
      (∀ g ∈ groups, g.2 ≠ []) →
      res.map Prod.fst = acc.map Prod.fst ++ groups.map Prod.fst ∧
      ∀ p ∈ res, p ∈ acc ∨ ∃ g ∈ groups, ∃ w, pyMin g.2 = .ok w ∧
        p = (g.1, winnerOf g.2 w) := by
  intro groups
  induction groups with
  | nil =>
    intro acc res h hne
    have hacc : acc = res := Except.ok.inj h
    subst hacc
    exact ⟨by simp, fun p hp => Or.inl hp⟩
  | cons g gs ih =>
    intro acc res h hne
    rw [List.foldlM_cons] at h
    have hgne : g.2 ≠ [] := hne g (List.mem_cons_self _ _)
    rw [winnersStep, if_neg (by simp [hgne])] at h
    cases hpm : pyMin g.2 with
    | error err =>
      rw [hpm] at h
      simp [Bind.bind, Except.bind] at h
    | ok w =>
      rw [hpm] at h
      simp only [Bind.bind, Except.bind, pure, Except.pure] at h
      obtain ⟨hkeys, hmem⟩ := ih _ res h
        (fun g' hg' => hne g' (List.mem_cons_of_mem _ hg'))
      constructor
      · rw [hkeys]
        simp
      · intro p hp
        rcases hmem p hp with hp' | ⟨g', hg', w', hw', hpw⟩
        · rcases List.mem_append.1 hp' with h1 | h2
          · exact Or.inl h1
          · rw [List.mem_singleton] at h2
            exact Or.inr ⟨g, List.mem_cons_self _ _, w, hpm, h2⟩
        · exact Or.inr ⟨g', List.mem_cons_of_mem _ hg', w', hw', hpw⟩

theorem winnersFold_error :
    ∀ (groups : List (Option Int × List TestResult)),
      (∃ g ∈ groups, g.2.isEmpty = false ∧ pyMin g.2 = .error ()) →
      ∀ acc, groups.foldlM winnersStep acc = .error () := by
  intro groups
  induction groups with
  | nil =>
    rintro ⟨g, hg, -⟩
    cases hg
  | cons g' gs ih =>
    rintro ⟨g, hg, hemp, hpm⟩ acc
    rw [List.foldlM_cons]
    rcases List.mem_cons.1 hg with rfl | hg'
    · rw [winnersStep, if_neg (by simp [hemp]), hpm]
      rfl
    · rw [winnersStep]
      by_cases he : g'.2.isEmpty
      · rw [if_pos he]
        show gs.foldlM winnersStep acc = _
        exact ih ⟨g, hg', hemp, hpm⟩ acc
      · rw [if_neg he]
        cases hpm' : pyMin g'.2 with
        | error err => rfl
        | ok w =>
          show gs.foldlM winnersStep _ = _
          exact ih ⟨g, hg', hemp, hpm⟩ _

theorem get_backend_comparison_ok (now : String) (s : ServerState)
    (r : ComparisonResponse) (h : get_backend_comparison now s = .ok r) :
    ∃ winners,
      (byContext s.backend_comparisons).foldlM winnersStep
        ([] : List (Option Int × WinnerInfo)) = .ok winners ∧
      r.winners_by_context = winners := by
  rw [get_backend_comparison] at h
  cases hf : (byContext s.backend_comparisons).foldlM winnersStep
      ([] : List (Option Int × WinnerInfo)) with
  | error e =>
    rw [hf] at h
    simp [Bind.bind, Except.bind] at h
  | ok winners =>
    rw [hf] at h
    simp only [Bind.bind, Except.bind, pure, Except.pure] at h
    have hr := Except.ok.inj h
    exact ⟨winners, rfl, by rw [← hr]⟩

/-- C3: when `GET /backend-comparison` succeeds, it reports exactly one winner
per distinct stored `context_size` value (in first-occurrence order), and each
reported winner is a member of its context group whose performance score is ≤
every group member's score — the first such member in insertion order (stable
minimum) — and the entry carries the winner's backend, score and latency plus
the group's backend list. -/
theorem c3_backend_comparison_winner (now : String) (s : ServerState)
    (r : ComparisonResponse) (h : get_backend_comparison now s = .ok r) :
    r.winners_by_context.map Prod.fst = contextKeys s.backend_comparisons ∧
    ∀ p ∈ r.winners_by_context,
      ∃ w ∈ s.backend_comparisons.filter (fun e => decide (contextKey e = p.1)),
        p.2.winner = w.backend ∧ p.2.score = w.performance_score ∧
        p.2.ttft_ms = w.avg_ttft_ms ∧
        p.2.all_backends = (s.backend_comparisons.filter
          (fun e => decide (contextKey e = p.1))).map (·.backend) ∧
        (∀ e ∈ s.backend_comparisons.filter
            (fun e => decide (contextKey e = p.1)),
          scoreLeB (scoreKey w) (scoreKey e) = true) ∧
        ((s.backend_comparisons.filter
            (fun e => decide (contextKey e = p.1))).dropWhile
          (fun e => scoreLtB (scoreKey w) (scoreKey e))).head? = some w := by
  obtain ⟨winners, hf, hrw⟩ := get_backend_comparison_ok now s r h
  obtain ⟨hkeys, hmem⟩ := winnersFold_ok _ _ _ hf (byContext_group_ne_nil _)
  constructor
  · rw [hrw, hkeys, List.map_nil, List.nil_append, byContext, List.map_map]
    show List.map id (contextKeys s.backend_comparisons) =
      contextKeys s.backend_comparisons
    exact List.map_id _
  · intro p hp
    rw [hrw] at hp
    rcases hmem p hp with habs | ⟨g, hg, w, hw, hpw⟩
    · cases habs
    · obtain ⟨k, hk, hgk⟩ := List.mem_map.1 hg
      obtain ⟨hwmem, hwle, hwdw⟩ := pyMin_ok_spec g.2 w hw
      subst hgk
      subst hpw
      exact ⟨w, hwmem, rfl, rfl, rfl, rfl, hwle, hwdw⟩

/-- A two-record comparison state used to instantiate the `GET
/backend-comparison` theorems: same context, present scores, `lmcache`
strictly better. -/
def comparisonA : TestResult :=
  { backend := some "lmcache", context_size := some 8192,
    avg_ttft_ms := some 120, performance_score := some 1 }

def comparisonB : TestResult :=
  { backend := some "dynamo", context_size := some 8192,
    avg_ttft_ms := some 200, performance_score := some 2 }

def comparisonState : ServerState :=
  { initialState with backend_comparisons := [comparisonA, comparisonB] }

def comparisonReport : ComparisonResponse :=
  { total_comparisons := 2
    winners_by_context :=
      [(some 8192,
        { winner := some "lmcache", score := some 1, ttft_ms := some 120,
          all_backends := [some "lmcache", some "dynamo"] })]
    recent_comparisons := [comparisonA, comparisonB]
    timestamp := "t" }

/-- Closed witness for `c3_backend_comparison_winner` on a concrete
two-record state. -/
theorem c3_backend_comparison_winner_witness :
    comparisonReport.winners_by_context.map Prod.fst =
      contextKeys comparisonState.backend_comparisons ∧
    ∃ w ∈ comparisonState.backend_comparisons.filter
        (fun e => decide (contextKey e = some 8192)),
      (some "lmcache" : Option String) = w.backend ∧
      (some 1 : Option ℚ) = w.performance_score ∧
      (some 120 : Option ℚ) = w.avg_ttft_ms ∧
      ([some "lmcache", some "dynamo"] : List (Option String)) =
        (comparisonState.backend_comparisons.filter
          (fun e => decide (contextKey e = some 8192))).map (·.backend) ∧
      (∀ e ∈ comparisonState.backend_comparisons.filter
          (fun e => decide (contextKey e = some 8192)),
        scoreLeB (scoreKey w) (scoreKey e) = true) ∧
      ((comparisonState.backend_comparisons.filter
          (fun e => decide (contextKey e = some 8192))).dropWhile
        (fun e => scoreLtB (scoreKey w) (scoreKey e))).head? = some w :=
  have h := c3_backend_comparison_winner "t" comparisonState comparisonReport
    (by rfl)
  ⟨h.1,
   h.2 (some 8192,
        { winner := some "lmcache", score := some 1, ttft_ms := some 120,
          all_backends := [some "lmcache", some "dynamo"] })
     (List.mem_cons_self _ _)⟩

/-- A context group mixing an absent score with a present score above 999. -/
def scorelessComparison : TestResult :=
  { backend := some "lmcache", context_size := some 1000,
    performance_score := none }

def scoredComparison : TestResult :=
  { backend := some "dynamo", context_size := some 1000,
    avg_ttft_ms := some 150, performance_score := some 1000 }

def mixedScoreState : ServerState :=
  { initialState with
    backend_comparisons := [scorelessComparison, scoredComparison] }

/-- C10 fails as stated. The stored dicts always materialise the
`performance_score` key (pydantic's `.dict()` keeps `None` fields), so
`.get("performance_score", 999)` returns `None` rather than `999`, and `min`
then compares `None` with a float and raises `TypeError`. On a group holding a
score-less record and a record scored 1000 (every present score exceeds 999),
the claim predicts the score-less record is reported as the winner; the
operation instead fails, reporting nothing. -/
theorem c10_counterexample :
    (get_backend_comparison "t" mixedScoreState).isOk = false := by
  rfl

/-- C10 amended: the `999` default is dead (the key is always present). A
record with an absent `performance_score` is incomparable, so whenever a
context group of two or more records contains one, the read raises
(`TypeError`) instead of reporting winners; only as its group's sole record is
it reported as the winner, with a null score. Records with absent
`context_size` are indeed grouped together under the absent value rather than
dropped. -/
theorem c10_absent_score_behaviour (now : String) (s : ServerState) :
    (∀ ctx : Option Int,
      (∃ e ∈ s.backend_comparisons.filter
          (fun x => decide (contextKey x = ctx)), scoreKey e = none) →
      2 ≤ (s.backend_comparisons.filter
          (fun x => decide (contextKey x = ctx))).length →
      (get_backend_comparison now s).isOk = false) ∧
    (∀ (r : ComparisonResponse) (ctx : Option Int) (e : TestResult),
      get_backend_comparison now s = .ok r →
      s.backend_comparisons.filter (fun x => decide (contextKey x = ctx)) = [e] →
      ∃ p ∈ r.winners_by_context, p.1 = ctx ∧ p.2.winner = e.backend ∧
        p.2.score = e.performance_score) ∧
    (∀ e ∈ s.backend_comparisons, e.context_size = none →
      e ∈ s.backend_comparisons.filter (fun x => decide (contextKey x = none))) := by
  refine ⟨?_, ?_, ?_⟩
  · rintro ctx ⟨e, hef, hescore⟩ hlen2
    obtain ⟨hel, hekey⟩ := List.mem_filter.1 hef
    have hekey' : contextKey e = ctx := by simpa using hekey
    have hctx : ctx ∈ contextKeys s.backend_comparisons := by
      rw [← hekey']
      exact mem_contextKeys_of_mem _ _ hel
    have hgmem : (ctx, s.backend_comparisons.filter
        fun x => decide (contextKey x = ctx)) ∈ byContext s.backend_comparisons :=
      List.mem_map.2 ⟨ctx, hctx, rfl⟩
    cases hgl : s.backend_comparisons.filter
        (fun x => decide (contextKey x = ctx)) with
    | nil =>
      rw [hgl] at hlen2
      simp at hlen2
    | cons e1 t =>
      cases t with
      | nil =>
        rw [hgl] at hlen2
        simp at hlen2
      | cons e2 rest =>
        rw [hgl] at hef
        have hpmerr : pyMin (e1 :: e2 :: rest) = .error () := by
          apply minLoop_error_of_none
          · exact List.cons_ne_nil _ _
          · exact ⟨e, hef, hescore⟩
        have hgne : (s.backend_comparisons.filter
            fun x => decide (contextKey x = ctx)).isEmpty = false := by
          rw [hgl]
          rfl
        have hpm2 : pyMin (s.backend_comparisons.filter
            fun x => decide (contextKey x = ctx)) = .error () := by
          rw [hgl]
          exact hpmerr
        have hferr := winnersFold_error (byContext s.backend_comparisons)
          ⟨(ctx, s.backend_comparisons.filter
              fun x => decide (contextKey x = ctx)), hgmem, hgne, hpm2⟩
          ([] : List (Option Int × WinnerInfo))
        simp only [get_backend_comparison, hferr]
        rfl
  · rintro r ctx e hok hsingle
    obtain ⟨winners, hf, hrw⟩ := get_backend_comparison_ok now s r hok
    obtain ⟨hkeys, hmem⟩ := winnersFold_ok _ _ _ hf (byContext_group_ne_nil _)
    have hef : e ∈ s.backend_comparisons.filter
        (fun x => decide (contextKey x = ctx)) := by
      rw [hsingle]
      exact List.mem_cons_self _ _
    obtain ⟨hel, hekey⟩ := List.mem_filter.1 hef
    have hekey' : contextKey e = ctx := by simpa using hekey
    have hctx : ctx ∈ contextKeys s.backend_comparisons := by
      rw [← hekey']
      exact mem_contextKeys_of_mem _ _ hel
    have hctxw : ctx ∈ winners.map Prod.fst := by
      rw [hkeys, List.map_nil, List.nil_append, byContext, List.map_map]
      show ctx ∈ List.map id (contextKeys s.backend_comparisons)
      rw [List.map_id]
      exact hctx
    obtain ⟨p, hp, hp1⟩ := List.mem_map.1 hctxw
    refine ⟨p, by rw [hrw]; exact hp, hp1, ?_⟩
    rcases hmem p hp with h0 | ⟨g, hg, w, hw, hpw⟩
    · cases h0
    · obtain ⟨k, hk, hgk⟩ := List.mem_map.1 hg
      subst hgk
      have hkctx : k = ctx := by
        rw [hpw] at hp1
        exact hp1
      subst hkctx
      have hw' : pyMin (s.backend_comparisons.filter
          fun x => decide (contextKey x = k)) = .ok w := hw
      rw [hsingle] at hw'
      have hwe : w = e := (Except.ok.inj hw').symm
      subst hwe
      rw [hpw]
      exact ⟨rfl, rfl⟩
  · intro e he hnone
    exact List.mem_filter.2 ⟨he, by simp [contextKey, hnone]⟩

/-- A lone score-less record in its own context group. -/
def soloScoreless : TestResult :=
  { backend := some "solo", context_size := some 5, performance_score := none }

def soloState : ServerState :=
  { initialState with backend_comparisons := [soloScoreless] }

def soloReport : ComparisonResponse :=
  { total_comparisons := 1
    winners_by_context :=
      [(some 5,
        { winner := some "solo", score := none, ttft_ms := none,
          all_backends := [some "solo"] })]
    recent_comparisons := [soloScoreless]
    timestamp := "t" }

/-- A record with an absent context size. -/
def noContextComparison : TestResult :=
  { backend := some "anon", context_size := none, performance_score := some 3 }

def noContextState : ServerState :=
  { initialState with backend_comparisons := [noContextComparison] }

/-- Closed witness for `c10_absent_score_behaviour`: the mixed group makes the
read fail; the lone score-less record is reported with a null score; the
context-less record lands in the `None` group. -/
theorem c10_absent_score_behaviour_witness :
    (get_backend_comparison "t" mixedScoreState).isOk = false ∧
    (∃ p ∈ soloReport.winners_by_context, p.1 = some 5 ∧
      p.2.winner = soloScoreless.backend ∧
      p.2.score = soloScoreless.performance_score) ∧
    noContextComparison ∈ noContextState.backend_comparisons.filter
      (fun x => decide (contextKey x = none)) :=
  ⟨(c10_absent_score_behaviour "t" mixedScoreState).1 (some 1000)
      ⟨scorelessComparison, by decide, rfl⟩ (by decide),
   (c10_absent_score_behaviour "t" soloState).2.1 soloReport (some 5)
      soloScoreless (by rfl) (by rfl),
   (c10_absent_score_behaviour "t" noContextState).2.2 noContextComparison
      (List.mem_cons_self _ _) rfl⟩

end LMCacheMock
